import Mathlib

/-!
# VibeFlow Studio — verification of the frame-rendering core

A shallow embedding of the rendering logic of `src/App.tsx` (the `drawCanvas`
pass and its helpers), together with the data model of `src/types.ts`.

Conventions of the embedding:
* JavaScript `number`s that hold times, sizes and opacities are modelled as
  rationals (`ℚ`); the decimal literals of the source (`0.4`, `1.5`, …) are
  exact decimal fractions, so `ℚ` represents them exactly.
* A video element's `duration` property can be `NaN` (metadata not loaded),
  `Infinity` (live stream), `0`, or a positive number.  The source only ever
  reads it through truthiness/finiteness guards
  (`v.duration && !isNaN(v.duration) && v.duration !== Infinity`), so the
  embedding carries `Option ℚ`: `some d` stands for a finite, non-`NaN`,
  non-zero duration `d`, and `none` for every value those guards reject.
* JavaScript `%` truncates toward zero; every use in the source has a
  non-negative dividend and a positive divisor, where truncation and floor
  agree, so the embedding uses the floor-based `jsMod` below.
* Canvas drawing is modelled by returning descriptions of the draw calls
  (which layer, at which opacity, clipped to which rectangle, …) instead of
  performing them.
-/

/-- `src/types.ts`: `MediaType`. -/
inductive MediaType where
  | IMAGE
  | VIDEO
deriving DecidableEq, Repr

/-- `src/types.ts`: `BackgroundMedia` (the `file : File` blob handle is not
part of the rendering logic and is omitted; `src` is the blob URL used as the
key into the hidden video-element cache). -/
structure BackgroundMedia where
  id : String
  type : MediaType
  src : String
  duration : ℚ
deriving DecidableEq, Repr

/-- The hidden video-element cache `videoElementsRef` of `src/App.tsx`:
`elem src` says whether a video element exists for the blob URL `src`, and
`dur src` is its `duration` property under the encoding explained in the
module docstring (`some d` iff the duration is finite, non-`NaN` and
non-zero). -/
structure VideoEnv where
  elem : String → Bool
  dur : String → Option ℚ

/-- `src/types.ts`: `LrcLine`. -/
structure LrcLine where
  time : ℚ
  text : String
deriving DecidableEq, Repr

/-- `src/types.ts`: `LyricEffect`. -/
inductive LyricEffect where
  | NONE
  | FADE_UP
  | TYPEWRITER
  | KARAOKE
  | BREATHING
  | SCATTER
deriving DecidableEq, Repr

/-- `src/types.ts`: `TransitionEffect`. -/
inductive TransitionEffect where
  | NONE
  | CROSSFADE
  | FLASH_BLACK
  | ZOOM_OUT
  | SHAKE
deriving DecidableEq, Repr

/-- `src/types.ts`: `TitleLayoutMode`. -/
inductive TitleLayoutMode where
  | CENTERED
  | VERTICAL_RIGHT
  | CINEMATIC
deriving DecidableEq, Repr

/-- `src/types.ts`: `TitleConfig`. -/
structure TitleConfig where
  enabled : Bool
  layoutMode : TitleLayoutMode
  duration : ℚ
  title : String
  subtitle : String
  artist : String
  author : String
  composer : String
  producer : String
deriving DecidableEq, Repr

/-- JavaScript's `%` on the non-negative dividends and positive divisors used
by `drawCanvas` (where truncated and floored division agree). -/
def jsMod (a b : ℚ) : ℚ := a - b * ⌊a / b⌋

/-- `src/App.tsx` line 206: `const loopTime = currentTime % totalCycleDuration`. -/
def loopTime (currentTime totalCycleDuration : ℚ) : ℚ :=
  jsMod currentTime totalCycleDuration

/-- A rectangle `(x, y, w, h)` as passed to canvas `rect`/`drawImage`. -/
structure Rect where
  x : ℚ
  y : ℚ
  w : ℚ
  h : ℚ
deriving DecidableEq, Repr

/-- `src/App.tsx` lines 586–602, `drawScaledMedia`: cover-fit draw of a media
surface with intrinsic size `mw × mh` onto a `cw × ch` canvas.  The source
returns early (drawing nothing) when the reported intrinsic width is `0`
(`media.videoWidth === 0` / `media.naturalWidth === 0`, i.e. not yet
decoded); the embedding returns `none` for that silent skip, and `some r`
for a `drawImage` call on the rectangle `r`. -/
def drawScaledMedia (mw mh cw ch : ℚ) : Option Rect :=
  if mw = 0 then none
  else
    let scale := max (cw / mw) (ch / mh)
    some ⟨cw / 2 - mw / 2 * scale, ch / 2 - mh / 2 * scale, mw * scale, mh * scale⟩

/-- `src/App.tsx` lines 522–531 (KARAOKE branch): the clip rectangle
`ctx.rect(startX, baseY - fontSize, clipWidth, fontSize * 2)` with
`clipWidth = textWidth * progress` and `startX = x - textWidth / 2`. -/
def karaokeClipRect (x baseY fontSize textWidth progress : ℚ) : Rect :=
  ⟨x - textWidth / 2, baseY - fontSize, textWidth * progress, fontSize * 2⟩

/-- `src/App.tsx` lines 188–199: the per-item duration of the playlist `map`.
`let duration = bg.duration` and, only when `bg.type === MediaType.VIDEO` and
`duration === 0`, replace it by `v.duration` when the video element exists and
its duration passes the guard (encoded by `env.dur bg.src = some d`), else by
the fallback constant `10`. -/
def effectiveDuration (env : VideoEnv) (bg : BackgroundMedia) : ℚ :=
  if bg.type = MediaType.VIDEO ∧ bg.duration = 0 then
    match (if env.elem bg.src then env.dur bg.src else none) with
    | some d => d
    | none => 10
  else bg.duration

/-- `src/App.tsx` line 202: one element of the derived `playlist`
(`{ ...bg, start, end: totalCycleDuration, effectiveDuration: duration }`). -/
structure Segment where
  item : BackgroundMedia
  start : ℚ
  endTime : ℚ
  effectiveDuration : ℚ
deriving DecidableEq, Repr

/-- The running accumulator of `src/App.tsx` lines 188–203: `t0` is the value
of `totalCycleDuration` before the remaining items are laid out. -/
def playlistFrom (env : VideoEnv) (t0 : ℚ) : List BackgroundMedia → List Segment
  | [] => []
  | bg :: rest =>
    let d := effectiveDuration env bg
    ⟨bg, t0, t0 + d, d⟩ :: playlistFrom env (t0 + d) rest

/-- `src/App.tsx` lines 186–203: the derived `playlist`, segments laid
end-to-end starting at `0`. -/
def playlist (env : VideoEnv) (bgs : List BackgroundMedia) : List Segment :=
  playlistFrom env 0 bgs

/-- `src/App.tsx` lines 186–203: `totalCycleDuration`, the sum of all
effective durations. -/
def totalCycleDuration (env : VideoEnv) (bgs : List BackgroundMedia) : ℚ :=
  (bgs.map (effectiveDuration env)).sum

/-- Cumulative sum of the first `i` effective durations (the `start` of the
`i`-th derived segment). -/
def cumDur (env : VideoEnv) (bgs : List BackgroundMedia) (i : ℕ) : ℚ :=
  ((bgs.take i).map (effectiveDuration env)).sum

/-- `src/App.tsx` line 207:
`playlist.find(item => loopTime >= item.start && loopTime < item.end) || playlist[0]`. -/
def currentBg (pl : List Segment) (lt : ℚ) : Option Segment :=
  (pl.find? fun s => decide (s.start ≤ lt) && decide (lt < s.endTime)).orElse
    fun _ => pl.head?

/-- The background drawing commands a frame issues, as far as they depend on
the playlist resolution (`src/App.tsx` lines 185–233): nothing (black frame),
an image draw, a video draw at a given internal playback pointer, or nothing
because the video element for the selected segment is missing. -/
inductive BgDraw where
  | blank
  | imageDraw (src : String)
  | videoDraw (src : String) (pointer : ℚ)
  | videoMissing (src : String)
deriving DecidableEq, Repr

/-- `src/App.tsx` lines 209–231: what is drawn once the loop time `lt` is
fixed.  For a video segment the internal pointer is
`(loopTime - currentBg.start) % sourceDuration` with
`sourceDuration = (v.duration && v.duration !== Infinity) ? v.duration : 1`
(the guard collapses to the `Option ℚ` encoding of `VideoEnv.dur`). -/
def backgroundDrawAt (env : VideoEnv) (pl : List Segment) (lt : ℚ) : BgDraw :=
  match currentBg pl lt with
  | none => .blank
  | some seg =>
    match seg.item.type with
    | .IMAGE => .imageDraw seg.item.src
    | .VIDEO =>
      if env.elem seg.item.src then
        let localTime := lt - seg.start
        let sourceDuration := (env.dur seg.item.src).getD 1
        .videoDraw seg.item.src (jsMod localTime sourceDuration)
      else .videoMissing seg.item.src

/-- `src/App.tsx` lines 185–233: the whole background pass of `drawCanvas`.
Skipped entirely (black frame) when the background list is empty or
`totalCycleDuration` is not positive. -/
def backgroundDraw (env : VideoEnv) (bgs : List BackgroundMedia) (t : ℚ) : BgDraw :=
  if bgs.isEmpty then .blank
  else if 0 < totalCycleDuration env bgs then
    backgroundDrawAt env (playlist env bgs) (loopTime t (totalCycleDuration env bgs))
  else .blank

/-- `src/App.tsx` lines 482–486: the callback of
`lrcLines.findIndex((line, i) => ...)` at index `i` — `true` iff
`currentTime >= line.time` and, when a successor exists,
`currentTime < nextLine.time`. -/
def activePred (lines : List LrcLine) (t : ℚ) (i : ℕ) : Bool :=
  match lines[i]?, lines[i + 1]? with
  | some line, some nextLine => decide (line.time ≤ t ∧ t < nextLine.time)
  | some line, none => decide (line.time ≤ t)
  | none, _ => false

/-- `src/App.tsx` lines 482–486: `activeIndex`, the first index whose callback
returns `true` (`-1`, here `none`, when there is none). -/
def activeIndex (lines : List LrcLine) (t : ℚ) : Option ℕ :=
  (List.range lines.length).find? (activePred lines t)

/-- `src/App.tsx` line 496:
`lrcLines[activeIndex + 1]?.time || (line.time + 5)` — the `||` falls back
both when the successor is missing and when its `time` is `0` (falsy). -/
def nextLineTime (lines : List LrcLine) (i : ℕ) (line : LrcLine) : ℚ :=
  match lines[i + 1]? with
  | some nl => if nl.time = 0 then line.time + 5 else nl.time
  | none => line.time + 5

/-- `src/App.tsx` lines 496–498: the clamped per-line progress
`Math.max(0, Math.min(1, (currentTime - line.time) / duration))`. -/
def lyricProgress (lines : List LrcLine) (i : ℕ) (line : LrcLine) (t : ℚ) : ℚ :=
  max 0 (min 1 ((t - line.time) / (nextLineTime lines i line - line.time)))

/-- One `drawTextWithEffects` call, reduced to the data the lyric-intro claim
is about: the text, its position and the font size it is drawn at. -/
structure TextCmd where
  text : String
  x : ℚ
  y : ℚ
  fontSize : ℚ
deriving DecidableEq, Repr

/-- Which branch of the lyric pass runs (`src/App.tsx` lines 482–580):
the active-line machinery for index `i`, the intro placeholder with its two
`drawTextWithEffects` calls (lines 575–579: the first line previewed at
`0.8×` font size below the base position, then `"..."` at the base position),
or nothing. -/
inductive LyricFrame where
  | activeLine (i : ℕ)
  | intro (cmds : List TextCmd)
  | blank
deriving DecidableEq, Repr

/-- `src/App.tsx` lines 482–580: branch selection of the lyric pass. -/
def renderLyricBranch (lines : List LrcLine) (t x baseY fontSize : ℚ) : LyricFrame :=
  match activeIndex lines t with
  | some i => .activeLine i
  | none =>
    match lines.head? with
    | some l0 =>
      if t < l0.time then
        .intro [⟨l0.text, x, baseY + fontSize * 1.5, fontSize * 0.8⟩,
                ⟨"...", x, baseY, fontSize⟩]
      else .blank
    | none => .blank

/-- The element type union of `src/App.tsx` line 327. -/
inductive TitleElementType where
  | title
  | subtitle
  | credit
  | label
deriving DecidableEq, Repr

/-- `src/App.tsx` lines 325–330: `TitleElement`. -/
structure TitleElement where
  text : String
  type : TitleElementType
  delay : ℚ
  fontSizeMult : ℚ
deriving DecidableEq, Repr

/-- `src/App.tsx` lines 332–361: the `elements` array, built by pushing
title, subtitle and artist (advancing `staggerTimer` by `staggerStep = 0.4`
after each) and then each non-empty credit line (advancing by `0.2`).
The imperative loop is rendered as threading `(elements, staggerTimer)`. -/
def buildTitleElements (c : TitleConfig) : List TitleElement :=
  let staggerStep : ℚ := 0.4
  let st1 : List TitleElement × ℚ :=
    if c.title = "" then ([], 0)
    else ([⟨c.title, .title, 0, 1⟩], staggerStep)
  let st2 : List TitleElement × ℚ :=
    if c.subtitle = "" then st1
    else (st1.1 ++ [⟨c.subtitle, .subtitle, st1.2, 0.6⟩], st1.2 + staggerStep)
  let st3 : List TitleElement × ℚ :=
    if c.artist = "" then st2
    else (st2.1 ++ [⟨c.artist, .credit, st2.2, 0.5⟩], st2.2 + staggerStep)
  let techCredits : List String :=
    [if c.author = "" then none else some ("Lyrics: " ++ c.author),
     if c.composer = "" then none else some ("Music: " ++ c.composer),
     if c.producer = "" then none else some ("Prod: " ++ c.producer)].filterMap id
  (techCredits.foldl
    (fun (p : List TitleElement × ℚ) tc => (p.1 ++ [⟨tc, .credit, p.2, 0.4⟩], p.2 + 0.2))
    st3).1

/-- The title-element list as the spec describes it: exactly the elements
implied by non-empty `TitleConfig` fields, in title → subtitle → artist →
credits order, each element's entry delay being `0.4` per preceding role
element plus `0.2` per preceding credit element. -/
def titleElementsSpec (c : TitleConfig) : List TitleElement :=
  let nT : ℚ := if c.title = "" then 0 else 1
  let nS : ℚ := if c.subtitle = "" then 0 else 1
  let nA : ℚ := if c.artist = "" then 0 else 1
  let nAu : ℚ := if c.author = "" then 0 else 1
  let nCo : ℚ := if c.composer = "" then 0 else 1
  (if c.title = "" then [] else [⟨c.title, .title, 0, 1⟩])
    ++ (if c.subtitle = "" then [] else [⟨c.subtitle, .subtitle, 0.4 * nT, 0.6⟩])
    ++ (if c.artist = "" then [] else [⟨c.artist, .credit, 0.4 * (nT + nS), 0.5⟩])
    ++ (if c.author = "" then []
        else [⟨"Lyrics: " ++ c.author, .credit, 0.4 * (nT + nS + nA), 0.4⟩])
    ++ (if c.composer = "" then []
        else [⟨"Music: " ++ c.composer, .credit, 0.4 * (nT + nS + nA) + 0.2 * nAu, 0.4⟩])
    ++ (if c.producer = "" then []
        else [⟨"Prod: " ++ c.producer, .credit,
               0.4 * (nT + nS + nA) + 0.2 * (nAu + nCo), 0.4⟩])

/-- `src/App.tsx` lines 375–378: inside `elements.forEach`, an element with
`elLocalTime = currentTime - el.delay < 0` is skipped (`return`) before any
drawing; the rest are drawn. -/
def drawnTitleElements (c : TitleConfig) (t : ℚ) : List TitleElement :=
  (buildTitleElements c).filter fun el => !decide (t - el.delay < 0)

/-- `src/App.tsx` lines 367–373: the global exit alpha —
`timeRemaining = config.duration - currentTime`, and when
`timeRemaining < exitDuration (= 1.0)` the alpha is
`Math.max(0, timeRemaining / exitDuration)`, else `1`. -/
def globalExitAlpha (duration t : ℚ) : ℚ :=
  if duration - t < 1 then max 0 ((duration - t) / 1) else 1

/-- `src/App.tsx` lines 381–383: the cubic ease-out of the 1.0s entry,
`progress = Math.min(1, elLocalTime / entryDuration)`,
`ease = 1 - Math.pow(1 - progress, 3)`. -/
def entryEase (elLocalTime : ℚ) : ℚ :=
  let progress := min 1 (elLocalTime / 1)
  1 - (1 - progress) ^ 3

/-- `src/App.tsx` lines 437–464: the combined alpha of a drawn title element.
`alpha` starts at `globalExitAlpha` and every effect branch except
`TYPEWRITER` multiplies it by `ease`. -/
def titleElementAlpha (effect : LyricEffect) (duration t delay : ℚ) : ℚ :=
  let g := globalExitAlpha duration t
  match effect with
  | .TYPEWRITER => g
  | _ => g * entryEase (t - delay)

/-- The entry alpha of a title element as the spec describes it: the cubic
ease of its local clock, except that the typewriter entry reveals characters
instead of fading, so its entry alpha is `1`. -/
def titleEntryAlphaSpec (effect : LyricEffect) (elLocalTime : ℚ) : ℚ :=
  if effect = .TYPEWRITER then 1 else entryEase elLocalTime

/-- Modelled from the spec: the Transition Compositor of §4.2 is absent from
`src/` — only its declarations survive there (`TransitionEffect` and the
`transitionDuration` field in `src/types.ts`, and the README's list of the
four strategies).  `(i+1) mod N`: the segment after the last is the first. -/
def nextSegmentIndex (n i : ℕ) : ℕ := (i + 1) % n

/-- Modelled from the spec: the Transition Compositor contract
`compositeBackground(current, next, timeRemaining, transitionDuration,
effect)` of §4.2, restricted to the layer/opacity output the claims are
about (the zoom scale and the random glitch jitter are visual-only and
carried by no claim).  The transition window is active iff
`timeRemaining <= transitionDuration` and more than one segment exists and
`effect != NONE`; `progress = 1 - timeRemaining/transitionDuration` clamped
to `[0,1]`; Crossfade draws `current` at opacity 1 then `next` at opacity
`progress`; outside the window only `current`, fully opaque. -/
def compositeBackground (current next : Segment) (numSegments : ℕ)
    (timeRemaining transitionDuration : ℚ) (effect : TransitionEffect) :
    List (Segment × ℚ) :=
  if timeRemaining ≤ transitionDuration ∧ 1 < numSegments ∧
      effect ≠ TransitionEffect.NONE then
    let progress := min 1 (max 0 (1 - timeRemaining / transitionDuration))
    match effect with
    | .CROSSFADE => [(current, 1), (next, progress)]
    | .FLASH_BLACK =>
      if progress < 1 / 2 then [(current, 1 - 2 * progress)]
      else [(next, 2 * (progress - 1 / 2))]
    | .ZOOM_OUT => [(current, 1 - progress), (next, progress)]
    | .SHAKE => [(current, 1), (next, 1)]
    | .NONE => [(current, 1)]
  else [(current, 1)]

/-! ## Concrete instances used by the witness theorems -/

/-- A video environment with no video elements (only images uploaded). -/
def envNone : VideoEnv := ⟨fun _ => false, fun _ => none⟩

/-- An image background item with an assigned duration. -/
def imgItem (id src : String) (d : ℚ) : BackgroundMedia := ⟨id, .IMAGE, src, d⟩

/-- A video background item with an assigned duration. -/
def vidItem (id src : String) (d : ℚ) : BackgroundMedia := ⟨id, .VIDEO, src, d⟩

/-- The two-image playlist of the spec's scenario (`imgA dur=5, imgB dur=5`). -/
def bgsPair : List BackgroundMedia := [imgItem "A" "a" 5, imgItem "B" "b" 5]

/-- A video environment knowing a single video element of duration `7`
under the blob URL `"v"`. -/
def envV7 : VideoEnv := ⟨fun s => s == "v", fun s => if s == "v" then some 7 else none⟩

/-- The single-line lyric list of the spec's scenario
(`{time:10, text:"Hello"}`). -/
def linesHello : List LrcLine := [⟨10, "Hello"⟩]

/-- A `TitleConfig` with only `title` and `author` set. -/
def cfgTA : TitleConfig := ⟨true, .CENTERED, 6, "T", "", "", "Au", "", ""⟩

/-- The spec scenario's `TitleConfig`: only `title = "Test"`, duration 6. -/
def cfgTest : TitleConfig := ⟨true, .CENTERED, 6, "Test", "", "", "", "", ""⟩

/-- A segment value for exercising the transition compositor. -/
def segOf (bg : BackgroundMedia) (s e : ℚ) : Segment := ⟨bg, s, e, e - s⟩

/-! ## Helper lemmas -/

lemma jsMod_eq_fract (a b : ℚ) (hb : b ≠ 0) : jsMod a b = b * Int.fract (a / b) := by
  unfold jsMod Int.fract
  field_simp

lemma jsMod_nonneg (a b : ℚ) (hb : 0 < b) : 0 ≤ jsMod a b := by
  rw [jsMod_eq_fract a b hb.ne']
  exact mul_nonneg hb.le (Int.fract_nonneg _)

lemma jsMod_lt (a b : ℚ) (hb : 0 < b) : jsMod a b < b := by
  rw [jsMod_eq_fract a b hb.ne']
  calc b * Int.fract (a / b) < b * 1 :=
        mul_lt_mul_of_pos_left (Int.fract_lt_one _) hb
    _ = b := mul_one b

lemma jsMod_add_nat_mul (a b : ℚ) (k : ℕ) (hb : b ≠ 0) :
    jsMod (a + k * b) b = jsMod a b := by
  unfold jsMod
  have h1 : (a + k * b) / b = a / b + (k : ℚ) := by field_simp
  have h2 : ⌊a / b + (k : ℚ)⌋ = ⌊a / b⌋ + (k : ℤ) := by
    exact_mod_cast Int.floor_add_nat (a / b) k
  rw [h1, h2]
  push_cast
  ring

lemma playlistFrom_length (env : VideoEnv) (t0 : ℚ) (l : List BackgroundMedia) :
    (playlistFrom env t0 l).length = l.length := by
  induction l generalizing t0 with
  | nil => rfl
  | cons bg rest ih => simp [playlistFrom, ih]

lemma playlistFrom_getElem? (env : VideoEnv) (l : List BackgroundMedia)
    (t0 : ℚ) (i : ℕ) :
    (playlistFrom env t0 l)[i]? = (l[i]?).map fun bg =>
      ⟨bg, t0 + ((l.take i).map (effectiveDuration env)).sum,
        t0 + ((l.take (i + 1)).map (effectiveDuration env)).sum,
        effectiveDuration env bg⟩ := by
  induction l generalizing t0 i with
  | nil => simp [playlistFrom]
  | cons bg rest ih =>
    cases i with
    | zero => simp [playlistFrom]
    | succ i =>
      simp only [playlistFrom, List.getElem?_cons_succ, ih, List.take_succ_cons,
        List.map_cons, List.sum_cons]
      cases h : rest[i]? with
      | none => simp
      | some bg' =>
        simp only [Option.map_some', Option.some.injEq, Segment.mk.injEq,
          true_and, and_true]
        constructor <;> ring

lemma playlist_getElem? (env : VideoEnv) (bgs : List BackgroundMedia) (i : ℕ) :
    (playlist env bgs)[i]? = (bgs[i]?).map fun bg =>
      ⟨bg, cumDur env bgs i, cumDur env bgs (i + 1), effectiveDuration env bg⟩ := by
  unfold playlist cumDur
  rw [playlistFrom_getElem?]
  simp

lemma playlist_length (env : VideoEnv) (bgs : List BackgroundMedia) :
    (playlist env bgs).length = bgs.length :=
  playlistFrom_length env 0 bgs

lemma cumDur_zero (env : VideoEnv) (bgs : List BackgroundMedia) :
    cumDur env bgs 0 = 0 := by
  simp [cumDur]

lemma cumDur_of_length_le (env : VideoEnv) (bgs : List BackgroundMedia) (i : ℕ)
    (h : bgs.length ≤ i) : cumDur env bgs i = totalCycleDuration env bgs := by
  unfold cumDur totalCycleDuration
  rw [List.take_of_length_le h]

lemma cumDur_length (env : VideoEnv) (bgs : List BackgroundMedia) :
    cumDur env bgs bgs.length = totalCycleDuration env bgs :=
  cumDur_of_length_le env bgs _ le_rfl

lemma cumDur_succ (env : VideoEnv) (bgs : List BackgroundMedia) (i : ℕ)
    (h : i < bgs.length) :
    cumDur env bgs (i + 1) = cumDur env bgs i + effectiveDuration env bgs[i] := by
  unfold cumDur
  rw [List.take_succ, List.map_append, List.sum_append, List.getElem?_eq_getElem h]
  simp

lemma effectiveDuration_nonneg (env : VideoEnv) (bg : BackgroundMedia)
    (hd : 0 ≤ bg.duration) (he : ∀ s d, env.dur s = some d → 0 ≤ d) :
    0 ≤ effectiveDuration env bg := by
  unfold effectiveDuration
  split_ifs with h h2
  · rcases h3 : env.dur bg.src with _ | d
    · show (0 : ℚ) ≤ 10
      norm_num
    · exact he _ d h3
  · show (0 : ℚ) ≤ 10
    norm_num
  · exact hd

lemma cumDur_mono (env : VideoEnv) (bgs : List BackgroundMedia)
    (hnn : ∀ bg ∈ bgs, 0 ≤ effectiveDuration env bg) :
    Monotone (cumDur env bgs) := by
  apply monotone_nat_of_le_succ
  intro i
  by_cases h : i < bgs.length
  · rw [cumDur_succ env bgs i h]
    have := hnn bgs[i] (List.getElem_mem h)
    linarith
  · rw [cumDur_of_length_le env bgs i (le_of_not_lt h),
      cumDur_of_length_le env bgs (i + 1) (by omega)]


lemma exists_active_index (env : VideoEnv) (bgs : List BackgroundMedia)
    (hne : bgs ≠ []) (lt : ℚ) (h0 : 0 ≤ lt)
    (h1 : lt < totalCycleDuration env bgs) :
    ∃ i, i < bgs.length ∧ cumDur env bgs i ≤ lt ∧ lt < cumDur env bgs (i + 1) := by
  have hn : 0 < bgs.length := List.length_pos.mpr hne
  have hP0 : cumDur env bgs 0 ≤ lt := by rw [cumDur_zero]; exact h0
  set i0 := Nat.findGreatest (fun i => cumDur env bgs i ≤ lt) (bgs.length - 1) with hi0
  have hspec : cumDur env bgs i0 ≤ lt :=
    Nat.findGreatest_spec (P := fun i => cumDur env bgs i ≤ lt) (Nat.zero_le _) hP0
  have hle : i0 ≤ bgs.length - 1 := Nat.findGreatest_le _
  refine ⟨i0, by omega, hspec, ?_⟩
  by_cases hcase : i0 = bgs.length - 1
  · have h2 : i0 + 1 = bgs.length := by omega
    rw [h2, cumDur_length]
    exact h1
  · have hgt : ¬ cumDur env bgs (i0 + 1) ≤ lt := by
      apply Nat.findGreatest_is_greatest (P := fun i => cumDur env bgs i ≤ lt)
        (n := bgs.length - 1) (k := i0 + 1)
      · rw [← hi0]
        omega
      · omega
    exact lt_of_not_le hgt

lemma active_index_unique (env : VideoEnv) (bgs : List BackgroundMedia)
    (hnn : ∀ bg ∈ bgs, 0 ≤ effectiveDuration env bg) {lt : ℚ} {i j : ℕ}
    (hi : cumDur env bgs i ≤ lt ∧ lt < cumDur env bgs (i + 1))
    (hj : cumDur env bgs j ≤ lt ∧ lt < cumDur env bgs (j + 1)) : i = j := by
  rcases lt_trichotomy i j with h | h | h
  · have hmono := cumDur_mono env bgs hnn (show i + 1 ≤ j by omega)
    linarith [hi.2, hj.1]
  · exact h
  · have hmono := cumDur_mono env bgs hnn (show j + 1 ≤ i by omega)
    linarith [hj.2, hi.1]

lemma mem_playlist_elim (env : VideoEnv) (bgs : List BackgroundMedia) {s : Segment}
    (h : s ∈ playlist env bgs) :
    ∃ i, i < bgs.length ∧ (playlist env bgs)[i]? = some s ∧
      s.start = cumDur env bgs i ∧ s.endTime = cumDur env bgs (i + 1) := by
  rw [List.mem_iff_getElem] at h
  obtain ⟨i, hi, hget⟩ := h
  have hlen : i < bgs.length := by rw [playlist_length] at hi; exact hi
  have hsome : (playlist env bgs)[i]? = some s := by
    rw [List.getElem?_eq_getElem hi, hget]
  have hchar := hsome
  rw [playlist_getElem?, List.getElem?_eq_getElem hlen] at hchar
  simp only [Option.map_some', Option.some.injEq] at hchar
  exact ⟨i, hlen, hsome, by rw [← hchar], by rw [← hchar]⟩

lemma currentBg_spec (env : VideoEnv) (bgs : List BackgroundMedia)
    (hne : bgs ≠ [])
    (lt : ℚ) (h0 : 0 ≤ lt) (h1 : lt < totalCycleDuration env bgs) :
    ∃ s, currentBg (playlist env bgs) lt = some s ∧ s ∈ playlist env bgs ∧
      s.start ≤ lt ∧ lt < s.endTime := by
  obtain ⟨i, hi, hile, hilt⟩ := exists_active_index env bgs hne lt h0 h1
  have hpl : (playlist env bgs)[i]? =
      some ⟨bgs[i], cumDur env bgs i, cumDur env bgs (i + 1),
        effectiveDuration env bgs[i]⟩ := by
    rw [playlist_getElem?, List.getElem?_eq_getElem hi]
    rfl
  have hmem : (⟨bgs[i], cumDur env bgs i, cumDur env bgs (i + 1),
      effectiveDuration env bgs[i]⟩ : Segment) ∈ playlist env bgs := by
    have := List.getElem?_eq_some.mp hpl
    obtain ⟨h2, heq⟩ := this
    rw [← heq]
    exact List.getElem_mem h2
  have hex : ∃ x, x ∈ playlist env bgs ∧
      (decide (x.start ≤ lt) && decide (lt < x.endTime)) = true :=
    ⟨_, hmem, by simp [hile, hilt]⟩
  obtain ⟨s, hs⟩ := Option.isSome_iff_exists.mp (List.find?_isSome.mpr hex)
  have hp := List.find?_some hs
  simp only [Bool.and_eq_true, decide_eq_true_eq] at hp
  refine ⟨s, ?_, List.mem_of_find?_eq_some hs, hp.1, hp.2⟩
  unfold currentBg
  rw [hs]
  rfl

/-! ## Claim theorems -/

/-- C1: for every non-empty background list with non-negative assigned and
intrinsic durations (all durations the application ever produces) whose
`totalCycleDuration` is positive, and every `currentTime ≥ 0`: the derived
segments have `start` equal to the cumulative sum of the effective durations
and `end = start + effectiveDuration` (hence are contiguous and
non-overlapping and partition `[0, totalCycleDuration)` with no gaps), with
`loopTime = currentTime mod totalCycleDuration` lying in
`[0, totalCycleDuration)`, exactly one segment satisfies
`start ≤ loopTime < end`, and the render pass
(`playlist.find(...) || playlist[0]`) selects that segment as the current
background. -/
theorem resolveActiveSegments_partition (env : VideoEnv)
    (bgs : List BackgroundMedia) (t : ℚ) (hne : bgs ≠ [])
    (hd : ∀ bg ∈ bgs, 0 ≤ bg.duration)
    (he : ∀ s d, env.dur s = some d → 0 ≤ d)
    (hpos : 0 < totalCycleDuration env bgs) (ht : 0 ≤ t) :
    (∀ i : ℕ, (playlist env bgs)[i]? = (bgs[i]?).map fun bg =>
        ⟨bg, cumDur env bgs i, cumDur env bgs (i + 1), effectiveDuration env bg⟩)
    ∧ (∀ i bg, bgs[i]? = some bg →
        cumDur env bgs (i + 1) = cumDur env bgs i + effectiveDuration env bg)
    ∧ cumDur env bgs 0 = 0
    ∧ cumDur env bgs bgs.length = totalCycleDuration env bgs
    ∧ 0 ≤ loopTime t (totalCycleDuration env bgs)
    ∧ loopTime t (totalCycleDuration env bgs) < totalCycleDuration env bgs
    ∧ (∃! s, s ∈ playlist env bgs ∧
        s.start ≤ loopTime t (totalCycleDuration env bgs) ∧
        loopTime t (totalCycleDuration env bgs) < s.endTime)
    ∧ (∃ s, currentBg (playlist env bgs) (loopTime t (totalCycleDuration env bgs))
          = some s ∧
        s.start ≤ loopTime t (totalCycleDuration env bgs) ∧
        loopTime t (totalCycleDuration env bgs) < s.endTime) := by
  have hnn : ∀ bg ∈ bgs, 0 ≤ effectiveDuration env bg := fun bg hbg =>
    effectiveDuration_nonneg env bg (hd bg hbg) he
  have h0 : 0 ≤ loopTime t (totalCycleDuration env bgs) :=
    jsMod_nonneg t _ hpos
  have h1 : loopTime t (totalCycleDuration env bgs) < totalCycleDuration env bgs :=
    jsMod_lt t _ hpos
  obtain ⟨s, hcur, hmem, hs1, hs2⟩ := currentBg_spec env bgs hne _ h0 h1
  refine ⟨playlist_getElem? env bgs, ?_, cumDur_zero env bgs, cumDur_length env bgs,
    h0, h1, ⟨s, ⟨hmem, hs1, hs2⟩, ?_⟩, ⟨s, hcur, hs1, hs2⟩⟩
  · intro i bg hbg
    obtain ⟨hi, hget⟩ := List.getElem?_eq_some.mp hbg
    rw [cumDur_succ env bgs i hi, hget]
  · rintro s' ⟨hmem', hs1', hs2'⟩
    obtain ⟨i, hi, hplI, hsi, hei⟩ := mem_playlist_elim env bgs hmem
    obtain ⟨j, hj, hplJ, hsj, hej⟩ := mem_playlist_elim env bgs hmem'
    have hij : j = i := active_index_unique env bgs hnn
      (i := j) (j := i)
      ⟨hsj ▸ hs1', hej ▸ hs2'⟩ ⟨hsi ▸ hs1, hei ▸ hs2⟩
    rw [hij] at hplJ
    rw [hplI] at hplJ
    injection hplJ with h
    exact h.symm

/-- Witness for `resolveActiveSegments_partition`: the two-image playlist at
`currentTime = 8.5` (the spec's own scenario) — the selection exists and
satisfies `start ≤ loopTime < end`. -/
theorem resolveActiveSegments_partition_witness :
    ∃ s, currentBg (playlist envNone bgsPair)
        (loopTime (17 / 2) (totalCycleDuration envNone bgsPair)) = some s ∧
      s.start ≤ loopTime (17 / 2) (totalCycleDuration envNone bgsPair) ∧
      loopTime (17 / 2) (totalCycleDuration envNone bgsPair) < s.endTime :=
  (resolveActiveSegments_partition envNone bgsPair (17 / 2) (by decide)
    (by decide) (fun s d h => by simp [envNone] at h)
    (by norm_num [totalCycleDuration, bgsPair, imgItem, effectiveDuration])
    (by norm_num)).2.2.2.2.2.2.2

/-- C3: the background layer is periodic in `currentTime` with period
`totalCycleDuration` — the whole background pass (item selection, local time,
video pointer) gives the same drawing commands at `t` and at
`t + k · totalCycleDuration` for every `k : ℕ`, since it reads `currentTime`
only through `loopTime`; and when `totalCycleDuration = 0` the background
computation is skipped entirely (black frame). -/
theorem background_layer_periodic (env : VideoEnv) (bgs : List BackgroundMedia)
    (t : ℚ) (ht : 0 ≤ t) :
    (0 < totalCycleDuration env bgs → ∀ k : ℕ,
      backgroundDraw env bgs (t + k * totalCycleDuration env bgs)
        = backgroundDraw env bgs t)
    ∧ (totalCycleDuration env bgs = 0 → backgroundDraw env bgs t = .blank) := by
  constructor
  · intro hpos k
    unfold backgroundDraw
    split_ifs with h1 h2 <;>
      first
        | rfl
        | (unfold loopTime; rw [jsMod_add_nat_mul t _ k hpos.ne'])
  · intro h0
    unfold backgroundDraw
    split_ifs with h1 h2 <;>
      first
        | rfl
        | (rw [h0] at h2; exact absurd h2 (lt_irrefl 0))

/-- Witness for `background_layer_periodic`: the two-image playlist
(cycle 10) drawn at `t = 3` and at `t = 3 + 2·10`. -/
theorem background_layer_periodic_witness :
    backgroundDraw envNone bgsPair (3 + (2 : ℕ) * totalCycleDuration envNone bgsPair)
      = backgroundDraw envNone bgsPair 3 :=
  (background_layer_periodic envNone bgsPair 3 (by norm_num)).1
    (by norm_num [totalCycleDuration, bgsPair, imgItem, effectiveDuration]) 2

/-- C4, counterexample: the intrinsic-duration/10s fallback of
`src/App.tsx` lines 190–198 runs only for `MediaType.VIDEO`; an image item
with assigned duration `0` keeps effective duration `0` (a zero-length
segment), not the `10` the claim prescribes for every item kind. -/
theorem effectiveDuration_image_zero_cex :
    effectiveDuration envNone (imgItem "A" "a" 0) = 0 ∧
    effectiveDuration envNone (imgItem "A" "a" 0) ≠ 10 := by
  decide

/-- C4, amended: for a video item, the effective duration is its assigned
duration when that is non-zero, else its intrinsic media duration when known
(finite, non-`NaN`, non-zero), else the fallback constant `10`; for an image
item it is always the assigned duration (images receive a positive default
of 5 s on upload, but an image whose duration a user sets to `0` contributes
a zero-length segment). -/
theorem effectiveDuration_cases (env : VideoEnv) (bg : BackgroundMedia) :
    (bg.type = MediaType.IMAGE → effectiveDuration env bg = bg.duration)
    ∧ (bg.type = MediaType.VIDEO → bg.duration ≠ 0 →
        effectiveDuration env bg = bg.duration)
    ∧ (∀ d, bg.type = MediaType.VIDEO → bg.duration = 0 →
        env.elem bg.src = true → env.dur bg.src = some d →
        effectiveDuration env bg = d)
    ∧ (bg.type = MediaType.VIDEO → bg.duration = 0 →
        (env.elem bg.src = false ∨ env.dur bg.src = none) →
        effectiveDuration env bg = 10) := by
  refine ⟨?_, ?_, ?_, ?_⟩ <;> unfold effectiveDuration
  · intro h
    rw [if_neg]
    simp [h]
  · intro h h2
    rw [if_neg fun hc => h2 hc.2]
  · intro d h h2 h3 h4
    rw [if_pos ⟨h, h2⟩]
    simp [h3, h4]
  · intro h h2 hcase
    rw [if_pos ⟨h, h2⟩]
    rcases hcase with h3 | h3 <;> simp [h3]

/-- Witness for `effectiveDuration_cases`: a video of intrinsic duration 7
with assigned duration 0 (auto) gets 7; an image with assigned duration 3
keeps 3; a video with assigned duration 0 and no known intrinsic duration
gets the fallback 10. -/
theorem effectiveDuration_cases_witness :
    effectiveDuration envV7 (vidItem "V" "v" 0) = 7 ∧
    effectiveDuration envNone (imgItem "A" "a" 3) = 3 ∧
    effectiveDuration envNone (vidItem "V" "v" 0) = 10 :=
  ⟨(effectiveDuration_cases envV7 (vidItem "V" "v" 0)).2.2.1 7 rfl rfl
      (by decide) (by decide),
    (effectiveDuration_cases envNone (imgItem "A" "a" 3)).1 rfl,
    (effectiveDuration_cases envNone (vidItem "V" "v" 0)).2.2.2 rfl rfl
      (Or.inl rfl)⟩

/-- C2 (modelled from the spec, §4.2): with more than one segment and the
Crossfade effect configured, whenever `timeRemaining ≤ transitionDuration`
the frame draws both layers — `current` at opacity 1 and `next` at opacity
`progress = 1 - timeRemaining/transitionDuration` clamped to `[0,1]`; outside
that window only `current` is drawn, fully opaque; and `next` wraps around:
the segment after the last is the first (`(i+1) mod n`). -/
theorem compositeBackground_crossfade (current next : Segment) (n : ℕ)
    (tr td : ℚ) (hn : 1 < n) :
    (tr ≤ td →
      compositeBackground current next n tr td .CROSSFADE
        = [(current, 1), (next, min 1 (max 0 (1 - tr / td)))])
    ∧ (td < tr →
      compositeBackground current next n tr td .CROSSFADE = [(current, 1)])
    ∧ (∀ i, i + 1 < n → nextSegmentIndex n i = i + 1)
    ∧ nextSegmentIndex n (n - 1) = 0 := by
  refine ⟨?_, ?_, ?_, ?_⟩
  · intro h
    unfold compositeBackground
    rw [if_pos ⟨h, hn, by decide⟩]
  · intro h
    unfold compositeBackground
    rw [if_neg fun hc => absurd hc.1 (not_le.mpr h)]
  · intro i hi
    unfold nextSegmentIndex
    exact Nat.mod_eq_of_lt hi
  · unfold nextSegmentIndex
    have : n - 1 + 1 = n := by omega
    rw [this, Nat.mod_self]

/-- Witness for `compositeBackground_crossfade`: the spec's scenario —
`[imgA dur=5, imgB dur=5]`, `transitionDuration = 1.5`, `currentTime = 8.5`,
so `timeRemaining = 1.5`: the window has just opened, `progress = 0`, and the
wrapped-around `next` (imgA) is drawn at opacity 0. -/
theorem compositeBackground_crossfade_witness :
    compositeBackground (segOf (imgItem "B" "b" 5) 5 10)
        (segOf (imgItem "A" "a" 5) 0 5) 2 (3 / 2) (3 / 2) .CROSSFADE
      = [(segOf (imgItem "B" "b" 5) 5 10, 1), (segOf (imgItem "A" "a" 5) 0 5, 0)]
      ∧ nextSegmentIndex 2 1 = 0 := by
  constructor
  · rw [(compositeBackground_crossfade (segOf (imgItem "B" "b" 5) 5 10)
      (segOf (imgItem "A" "a" 5) 0 5) 2 (3 / 2) (3 / 2) (by norm_num)).1 le_rfl]
    norm_num
  · exact (compositeBackground_crossfade (segOf (imgItem "B" "b" 5) 5 10)
      (segOf (imgItem "A" "a" 5) 0 5) 2 (3 / 2) (3 / 2) (by norm_num)).2.2.2

/-- C6: the Karaoke clip rectangle has width `measuredTextWidth · progress`
and left edge at the text's left edge (`x - textWidth/2`, the centred text
position minus half the measured width); over a fixed line the width is
monotonically non-decreasing in `progress`, equals 0 at `progress = 0` and
the full measured width at `progress = 1`. -/
theorem karaoke_clip_reveal (x baseY fontSize textWidth : ℚ)
    (hw : 0 ≤ textWidth) :
    (∀ p, (karaokeClipRect x baseY fontSize textWidth p).w = textWidth * p)
    ∧ (∀ p, (karaokeClipRect x baseY fontSize textWidth p).x = x - textWidth / 2)
    ∧ (karaokeClipRect x baseY fontSize textWidth 0).w = 0
    ∧ (karaokeClipRect x baseY fontSize textWidth 1).w = textWidth
    ∧ (∀ p q : ℚ, p ≤ q →
        (karaokeClipRect x baseY fontSize textWidth p).w
          ≤ (karaokeClipRect x baseY fontSize textWidth q).w) := by
  refine ⟨fun p => rfl, fun p => rfl, ?_, ?_, ?_⟩
  · show textWidth * 0 = 0
    ring
  · show textWidth * 1 = textWidth
    ring
  · intro p q hpq
    exact mul_le_mul_of_nonneg_left hpq hw

/-- Witness for `karaoke_clip_reveal`: a 300-unit-wide line centred at
`x = 640`: half-progress reveals 150 units starting at the left edge 490. -/
theorem karaoke_clip_reveal_witness :
    (karaokeClipRect 640 600 50 300 (1 / 2)).w = 300 * (1 / 2) ∧
    (karaokeClipRect 640 600 50 300 (1 / 2)).x = 640 - 300 / 2 ∧
    (karaokeClipRect 640 600 50 300 0).w = 0 ∧
    (karaokeClipRect 640 600 50 300 1).w = 300 :=
  ⟨(karaoke_clip_reveal 640 600 50 300 (by norm_num)).1 (1 / 2),
    (karaoke_clip_reveal 640 600 50 300 (by norm_num)).2.1 (1 / 2),
    (karaoke_clip_reveal 640 600 50 300 (by norm_num)).2.2.1,
    (karaoke_clip_reveal 640 600 50 300 (by norm_num)).2.2.2.1⟩

/-- C9: `drawScaledMedia` skips the layer (no draw call, no error) when the
media reports intrinsic width 0 (not yet decoded — an undecoded surface
reports 0×0); with a non-zero intrinsic size it draws the media with the
uniform cover scale `max (canvasW/mediaW) (canvasH/mediaH)`, centred on the
canvas. -/
theorem drawScaledMedia_spec (mw mh cw ch : ℚ) :
    (mw = 0 → drawScaledMedia mw mh cw ch = none)
    ∧ (mw ≠ 0 → drawScaledMedia mw mh cw ch =
        some ⟨cw / 2 - mw / 2 * max (cw / mw) (ch / mh),
          ch / 2 - mh / 2 * max (cw / mw) (ch / mh),
          mw * max (cw / mw) (ch / mh), mh * max (cw / mw) (ch / mh)⟩)
    ∧ (mw ≠ 0 → ∀ r, drawScaledMedia mw mh cw ch = some r →
        r.x + r.w / 2 = cw / 2 ∧ r.y + r.h / 2 = ch / 2) := by
  refine ⟨?_, ?_, ?_⟩
  · intro h
    unfold drawScaledMedia
    rw [if_pos h]
  · intro h
    unfold drawScaledMedia
    rw [if_neg h]
  · intro h r hr
    unfold drawScaledMedia at hr
    rw [if_neg h] at hr
    injection hr with hr
    constructor
    · rw [← hr]
      show cw / 2 - mw / 2 * _ + mw * _ / 2 = cw / 2
      ring
    · rw [← hr]
      show ch / 2 - mh / 2 * _ + mh * _ / 2 = ch / 2
      ring

/-- Witness for `drawScaledMedia_spec`: a not-yet-decoded surface (0×0) on a
1280×720 canvas is skipped; a 640×360 surface is drawn at cover scale 2,
centred. -/
theorem drawScaledMedia_spec_witness :
    drawScaledMedia 0 0 1280 720 = none ∧
    drawScaledMedia 640 360 1280 720
      = some ⟨1280 / 2 - 640 / 2 * max (1280 / 640 : ℚ) (720 / 360),
          720 / 2 - 360 / 2 * max (1280 / 640 : ℚ) (720 / 360),
          640 * max (1280 / 640 : ℚ) (720 / 360),
          360 * max (1280 / 640 : ℚ) (720 / 360)⟩ :=
  ⟨(drawScaledMedia_spec 0 0 1280 720).1 rfl,
    (drawScaledMedia_spec 640 360 1280 720).2.1 (by norm_num)⟩

lemma lrc_times_mono (lines : List LrcLine)
    (hs : List.Pairwise (fun a b : LrcLine => a.time ≤ b.time) lines)
    {i j : ℕ} (hij : i ≤ j) {li lj : LrcLine}
    (hi : lines[i]? = some li) (hj : lines[j]? = some lj) :
    li.time ≤ lj.time := by
  obtain ⟨hi', hgi⟩ := List.getElem?_eq_some.mp hi
  obtain ⟨hj', hgj⟩ := List.getElem?_eq_some.mp hj
  rcases eq_or_lt_of_le hij with h | h
  · subst h
    rw [← hgi, ← hgj]
  · rw [List.pairwise_iff_getElem] at hs
    rw [← hgi, ← hgj]
    exact hs i j hi' hj' h

lemma activePred_true_iff (lines : List LrcLine) (t : ℚ) (i : ℕ) :
    activePred lines t i = true ↔
      ∃ line, lines[i]? = some line ∧ line.time ≤ t ∧
        (∀ nl, lines[i + 1]? = some nl → t < nl.time) := by
  unfold activePred
  rcases h1 : lines[i]? with _ | line
  · simp [h1]
  · rcases h2 : lines[i + 1]? with _ | nl
    · simp [h1, h2]
    · simp only [h1, h2, decide_eq_true_eq, Option.some.injEq]
      constructor
      · rintro ⟨ha, hb⟩
        exact ⟨line, rfl, ha, fun nl' hnl' => by rw [← hnl']; exact hb⟩
      · rintro ⟨line', hline', ha, hb⟩
        rw [hline']
        exact ⟨ha, hb nl rfl⟩

lemma activeIndex_sound (lines : List LrcLine) (t : ℚ) (i : ℕ)
    (h : activeIndex lines t = some i) :
    i < lines.length ∧
      ∃ line, lines[i]? = some line ∧ line.time ≤ t ∧
        (∀ nl, lines[i + 1]? = some nl → t < nl.time) := by
  unfold activeIndex at h
  exact ⟨List.mem_range.mp (List.mem_of_find?_eq_some h),
    (activePred_true_iff lines t i).mp (List.find?_some h)⟩

lemma activeIndex_exists (lines : List LrcLine) (t : ℚ) (l0 : LrcLine)
    (hhead : lines.head? = some l0) (h0 : l0.time ≤ t) :
    ∃ i, activeIndex lines t = some i := by
  have hne : lines ≠ [] := by
    intro h
    rw [h] at hhead
    cases hhead
  have hn : 0 < lines.length := List.length_pos.mpr hne
  have hget0 : lines[0]? = some l0 := by
    rwa [← List.head?_eq_getElem?]
  set P : ℕ → Prop :=
    fun i => ((lines[i]?).map fun l => decide (l.time ≤ t)).getD false = true
    with hP
  haveI : DecidablePred P := fun i => instDecidableEqBool _ _
  have hP0 : P 0 := by
    rw [hP]
    simp only [hget0, Option.map_some', Option.getD_some, decide_eq_true_eq]
    exact h0
  set i0 := Nat.findGreatest P (lines.length - 1) with hi0
  have hspec : P i0 := Nat.findGreatest_spec (Nat.zero_le _) hP0
  have hle : i0 ≤ lines.length - 1 := Nat.findGreatest_le _
  have hi0lt : i0 < lines.length := by omega
  obtain ⟨line0, hline0⟩ :
      ∃ line0, lines[i0]? = some line0 := by
    rw [List.getElem?_eq_getElem hi0lt]
    exact ⟨_, rfl⟩
  have hline0le : line0.time ≤ t := by
    rw [hP] at hspec
    simp only [hline0, Option.map_some', Option.getD_some,
      decide_eq_true_eq] at hspec
    exact hspec
  have hpred : activePred lines t i0 = true := by
    rw [activePred_true_iff]
    refine ⟨line0, hline0, hline0le, ?_⟩
    intro nl hnl
    have hsucc : i0 + 1 < lines.length := by
      rcases Nat.lt_or_ge (i0 + 1) lines.length with h | h
      · exact h
      · rw [List.getElem?_eq_none h] at hnl
        cases hnl
    have hnP : ¬ P (i0 + 1) := by
      apply Nat.findGreatest_is_greatest (P := P) (n := lines.length - 1)
        (k := i0 + 1)
      · rw [← hi0]
        omega
      · omega
    rw [hP] at hnP
    simp only [hnl, Option.map_some', Option.getD_some,
      decide_eq_true_eq] at hnP
    exact lt_of_not_le hnP
  have hex : ∃ x, x ∈ List.range lines.length ∧ activePred lines t x = true :=
    ⟨i0, List.mem_range.mpr hi0lt, hpred⟩
  obtain ⟨i, hi⟩ := Option.isSome_iff_exists.mp (List.find?_isSome.mpr hex)
  exact ⟨i, hi⟩

lemma activeIndex_unique (lines : List LrcLine) (t : ℚ)
    (hs : List.Pairwise (fun a b : LrcLine => a.time ≤ b.time) lines)
    {i j : ℕ}
    (hi : ∃ line, lines[i]? = some line ∧ line.time ≤ t ∧
      (∀ nl, lines[i + 1]? = some nl → t < nl.time))
    (hj : ∃ line, lines[j]? = some line ∧ line.time ≤ t ∧
      (∀ nl, lines[j + 1]? = some nl → t < nl.time)) : i = j := by
  obtain ⟨li, hgi, hlei, hsucci⟩ := hi
  obtain ⟨lj, hgj, hlej, hsuccj⟩ := hj
  by_contra hne
  rcases Nat.lt_or_ge i j with h | h
  · obtain ⟨hj', hgj'⟩ := List.getElem?_eq_some.mp hgj
    have hsucc : i + 1 < lines.length := by omega
    have hni : lines[i + 1]? = some lines[i + 1] :=
      List.getElem?_eq_getElem hsucc
    have h1 : t < lines[i + 1].time := hsucci _ hni
    have h2 : lines[i + 1].time ≤ lj.time :=
      lrc_times_mono lines hs (by omega) hni hgj
    linarith
  · have h : j < i := by omega
    obtain ⟨hi', hgi'⟩ := List.getElem?_eq_some.mp hgi
    have hsucc : j + 1 < lines.length := by omega
    have hnj : lines[j + 1]? = some lines[j + 1] :=
      List.getElem?_eq_getElem hsucc
    have h1 : t < lines[j + 1].time := hsuccj _ hnj
    have h2 : lines[j + 1].time ≤ li.time :=
      lrc_times_mono lines hs (by omega) hnj hgi
    linarith

lemma activeIndex_none_of_before_first (lines : List LrcLine) (t : ℚ)
    (hs : List.Pairwise (fun a b : LrcLine => a.time ≤ b.time) lines)
    (l0 : LrcLine) (hhead : lines.head? = some l0) (ht : t < l0.time) :
    activeIndex lines t = none := by
  have hget0 : lines[0]? = some l0 := by rwa [← List.head?_eq_getElem?]
  unfold activeIndex
  rw [List.find?_eq_none]
  intro i hi
  rw [List.mem_range] at hi
  intro hpred
  obtain ⟨line, hline, hle, _⟩ := (activePred_true_iff lines t i).mp hpred
  have : l0.time ≤ line.time := lrc_times_mono lines hs (Nat.zero_le i) hget0 hline
  linarith

/-- C5: for a non-empty, ascending lyric list and `currentTime ≥ 0`, the
`findIndex` scan selects exactly the line whose `time ≤ currentTime` and
whose successor's time is `> currentTime` (soundness, existence once the
first line has started, and uniqueness); the last line stays active for all
time at or beyond its own timestamp; and when `currentTime` precedes the
first line's timestamp no line is active and the frame renders the intro
placeholder: the first line previewed at `0.8×` font size below the base
position and an ellipsis at the base position. -/
theorem active_line_selection (lines : List LrcLine) (t x baseY fontSize : ℚ)
    (hne : lines ≠ [])
    (hs : List.Pairwise (fun a b : LrcLine => a.time ≤ b.time) lines)
    (ht : 0 ≤ t) :
    (∀ i, activeIndex lines t = some i →
      ∃ line, lines[i]? = some line ∧ line.time ≤ t ∧
        (∀ nl, lines[i + 1]? = some nl → t < nl.time))
    ∧ (∀ l0, lines.head? = some l0 → l0.time ≤ t →
        ∃ i, activeIndex lines t = some i)
    ∧ (∀ i j,
        (∃ line, lines[i]? = some line ∧ line.time ≤ t ∧
          (∀ nl, lines[i + 1]? = some nl → t < nl.time)) →
        (∃ line, lines[j]? = some line ∧ line.time ≤ t ∧
          (∀ nl, lines[j + 1]? = some nl → t < nl.time)) → i = j)
    ∧ (∀ llast, lines.getLast? = some llast → llast.time ≤ t →
        activeIndex lines t = some (lines.length - 1))
    ∧ (∀ l0, lines.head? = some l0 → t < l0.time →
        activeIndex lines t = none ∧
        renderLyricBranch lines t x baseY fontSize =
          .intro [⟨l0.text, x, baseY + fontSize * 1.5, fontSize * 0.8⟩,
                  ⟨"...", x, baseY, fontSize⟩]) := by
  refine ⟨?_, ?_, ?_, ?_, ?_⟩
  · intro i h
    exact (activeIndex_sound lines t i h).2
  · intro l0 hhead h0
    exact activeIndex_exists lines t l0 hhead h0
  · intro i j hi hj
    exact activeIndex_unique lines t hs hi hj
  · intro llast hlast hlastle
    have hn : 0 < lines.length := List.length_pos.mpr hne
    obtain ⟨l0, hhead⟩ : ∃ l0, lines.head? = some l0 := by
      rw [List.head?_eq_getElem?, List.getElem?_eq_getElem hn]
      exact ⟨_, rfl⟩
    have hget0 : lines[0]? = some l0 := by rwa [← List.head?_eq_getElem?]
    have hgetlast : lines[lines.length - 1]? = some llast := by
      rwa [← List.getLast?_eq_getElem?]
    have h0le : l0.time ≤ t :=
      le_trans (lrc_times_mono lines hs (Nat.zero_le _) hget0 hgetlast) hlastle
    obtain ⟨i, hi⟩ := activeIndex_exists lines t l0 hhead h0le
    have hiprop := (activeIndex_sound lines t i hi).2
    have hlastprop : ∃ line, lines[lines.length - 1]? = some line ∧
        line.time ≤ t ∧
        (∀ nl, lines[lines.length - 1 + 1]? = some nl → t < nl.time) := by
      refine ⟨llast, hgetlast, hlastle, ?_⟩
      intro nl hnl
      rw [List.getElem?_eq_none (by omega)] at hnl
      cases hnl
    have := activeIndex_unique lines t hs hiprop hlastprop
    rwa [this] at hi
  · intro l0 hhead htlt
    have hnone := activeIndex_none_of_before_first lines t hs l0 hhead htlt
    refine ⟨hnone, ?_⟩
    unfold renderLyricBranch
    simp only [hnone, hhead]
    rw [if_pos htlt]

/-- Witness for `active_line_selection`: the spec's scenario — the single
line `{time: 10, text: "Hello"}` at `currentTime = 9` takes the intro
placeholder path (no active index). -/
theorem active_line_selection_witness :
    activeIndex linesHello 9 = none ∧
    renderLyricBranch linesHello 9 640 600 50 =
      .intro [⟨"Hello", 640, 600 + 50 * 1.5, 50 * 0.8⟩, ⟨"...", 640, 600, 50⟩] :=
  (active_line_selection linesHello 9 640 600 50 (by decide)
      (by simp [linesHello]) (by norm_num)).2.2.2.2
    ⟨10, "Hello"⟩ rfl (by norm_num)

/-- C10: whenever the lyric pass has an active line (ascending list,
`currentTime ≥ 0`), the `nextLineTime` expression — the successor's
timestamp when the successor exists and has a truthy (non-zero) time, else
the active line's time plus 5 — is strictly greater than the active line's
time, so the divisor of the progress computation is positive and
`progress = clamp((currentTime - line.time)/duration, 0, 1)` is a
well-defined value of `[0, 1]`. -/
theorem lyric_progress_well_defined (lines : List LrcLine) (t : ℚ) (i : ℕ)
    (line : LrcLine)
    (hs : List.Pairwise (fun a b : LrcLine => a.time ≤ b.time) lines)
    (ht : 0 ≤ t) (hactive : activeIndex lines t = some i)
    (hline : lines[i]? = some line) :
    line.time < nextLineTime lines i line
    ∧ 0 < nextLineTime lines i line - line.time
    ∧ 0 ≤ lyricProgress lines i line t
    ∧ lyricProgress lines i line t ≤ 1 := by
  obtain ⟨_, line', hline', _, hsucc⟩ := activeIndex_sound lines t i hactive
  rw [hline] at hline'
  injection hline' with hline'
  subst hline'
  have hmain : line.time < nextLineTime lines i line := by
    unfold nextLineTime
    rcases h2 : lines[i + 1]? with _ | nl
    · simp only [h2]
      linarith
    · have htlt : t < nl.time := hsucc nl h2
      simp only [h2]
      split_ifs with h0
      · linarith
      · linarith
  refine ⟨hmain, by linarith, ?_, ?_⟩
  · unfold lyricProgress
    exact le_max_left 0 _
  · unfold lyricProgress
    exact max_le (by norm_num) (min_le_left _ _)

/-- Witness for `lyric_progress_well_defined`: the single line
`{time: 10, text: "Hello"}` at `currentTime = 12` is active (last line past
its timestamp) with segment lookahead `10 + 5`. -/
theorem lyric_progress_well_defined_witness :
    (⟨10, "Hello"⟩ : LrcLine).time < nextLineTime linesHello 0 ⟨10, "Hello"⟩ ∧
    0 < nextLineTime linesHello 0 ⟨10, "Hello"⟩ - (⟨10, "Hello"⟩ : LrcLine).time ∧
    0 ≤ lyricProgress linesHello 0 ⟨10, "Hello"⟩ 12 ∧
    lyricProgress linesHello 0 ⟨10, "Hello"⟩ 12 ≤ 1 :=
  lyric_progress_well_defined linesHello 12 0 ⟨10, "Hello"⟩
    (by simp [linesHello]) (by norm_num)
    (by simp [activeIndex, linesHello, activePred]; norm_num) rfl

lemma titleElements_eq_spec (c : TitleConfig) :
    buildTitleElements c = titleElementsSpec c := by
  unfold buildTitleElements titleElementsSpec
  rcases eq_or_ne c.title "" with h1 | h1 <;>
    rcases eq_or_ne c.subtitle "" with h2 | h2 <;>
      rcases eq_or_ne c.artist "" with h3 | h3 <;>
        rcases eq_or_ne c.author "" with h4 | h4 <;>
          rcases eq_or_ne c.composer "" with h5 | h5 <;>
            rcases eq_or_ne c.producer "" with h6 | h6 <;>
              simp [h1, h2, h3, h4, h5, h6, List.filterMap] <;> norm_num

/-- C7: the per-frame title element list is exactly the one implied by the
non-empty `TitleConfig` fields, in title → subtitle → artist → credits
(author, composer, producer) order, delays accumulating by a 0.4 s stagger
step per role and 0.2 s per credit; and an element whose entry delay exceeds
`currentTime` is skipped before any drawing in that frame. -/
theorem title_elements_order_and_gating (c : TitleConfig) (t : ℚ) :
    buildTitleElements c = titleElementsSpec c
    ∧ (∀ el ∈ drawnTitleElements c t, el.delay ≤ t)
    ∧ (∀ el ∈ buildTitleElements c, t < el.delay →
        el ∉ drawnTitleElements c t) := by
  refine ⟨titleElements_eq_spec c, ?_, ?_⟩
  · intro el hel
    rw [drawnTitleElements, List.mem_filter] at hel
    have h2 := hel.2
    simp only [Bool.not_eq_true', decide_eq_false_iff_not, not_lt] at h2
    linarith
  · intro el hel hlt hmem
    rw [drawnTitleElements, List.mem_filter] at hmem
    have h2 := hmem.2
    simp only [Bool.not_eq_true', decide_eq_false_iff_not, not_lt] at h2
    linarith

/-- Witness for `title_elements_order_and_gating`: a config with title and
author set builds `[title@0, "Lyrics: …"@0.4]`, and at `currentTime = 0.3`
the credit (delay 0.4 > 0.3) is not drawn. -/
theorem title_elements_order_and_gating_witness :
    buildTitleElements cfgTA = titleElementsSpec cfgTA ∧
    (⟨"Lyrics: Au", .credit, 0.4, 0.4⟩ : TitleElement)
      ∉ drawnTitleElements cfgTA (3 / 10) :=
  ⟨(title_elements_order_and_gating cfgTA (3 / 10)).1,
    (title_elements_order_and_gating cfgTA (3 / 10)).2.2
      ⟨"Lyrics: Au", .credit, 0.4, 0.4⟩
      (by simp [buildTitleElements, cfgTA]) (by norm_num)⟩

/-- C8: during the final 1.0 s of the title (`timeRemaining < 1`) a single
global exit alpha `max(0, timeRemaining / 1.0)` applies uniformly,
multiplied with each element's own entry alpha (entry alpha 1 for the
typewriter effect, the cubic entry ease otherwise); outside that window the
global exit alpha is 1; in the spec's scenario (only `title` set,
duration 6, `currentTime = 5.6`) the combined alpha is 0.4. -/
theorem title_global_exit_alpha (effect : LyricEffect) (duration t delay : ℚ) :
    (duration - t < 1 →
      globalExitAlpha duration t = max 0 ((duration - t) / 1))
    ∧ (1 ≤ duration - t → globalExitAlpha duration t = 1)
    ∧ titleElementAlpha effect duration t delay
        = globalExitAlpha duration t * titleEntryAlphaSpec effect (t - delay)
    ∧ titleElementAlpha .FADE_UP 6 (28 / 5) 0 = 2 / 5 := by
  refine ⟨?_, ?_, ?_, ?_⟩
  · intro h
    unfold globalExitAlpha
    rw [if_pos h]
  · intro h
    unfold globalExitAlpha
    rw [if_neg (not_lt.mpr h)]
  · cases effect <;> simp [titleElementAlpha, titleEntryAlphaSpec]
  · norm_num [titleElementAlpha, globalExitAlpha, entryEase]

/-- Witness for `title_global_exit_alpha`: at `duration = 6`,
`currentTime = 5.6` the exit window is open and the exit alpha is `0.4`;
at `currentTime = 3` it is closed and the exit alpha is 1. -/
theorem title_global_exit_alpha_witness :
    globalExitAlpha 6 (28 / 5) = max 0 ((6 - 28 / 5) / 1) ∧
    globalExitAlpha 6 3 = 1 ∧
    titleElementAlpha .FADE_UP 6 (28 / 5) 0 = 2 / 5 :=
  ⟨(title_global_exit_alpha .FADE_UP 6 (28 / 5) 0).1 (by norm_num),
    (title_global_exit_alpha .FADE_UP 6 3 0).2.1 (by norm_num),
    (title_global_exit_alpha .FADE_UP 6 (28 / 5) 0).2.2.2⟩
